import Mathlib

/-
Verification of the CPU-info module (be/src/util/cpu-info.cc).

The development shallowly embeds the module: the descriptor-table scan of
`CpuInfo::Init`, the flag parser `ParseCPUFlags`, the feature mutator
`CpuInfo::EnableFeature`, the requirements check
`CpuInfo::EnforceCpuRequirements`, the core query `CpuInfo::GetCurrentCore`,
and the NUMA discovery/derivation routines `CpuInfo::InitNuma`,
`CpuInfo::InitFakeNumaForTest` and `CpuInfo::InitNumaNodeToCores`.

Strings are modelled as `List Char`; the 64-bit flag masks as `Nat` with
explicit bitwise operations (all flag constants are single low bits, so
two-complement truncation never matters); fatal assertions (DCHECK) and
out-of-bounds vector indexing are made observable through `Except Fatal`
and `Option` results.
-/

namespace CpuInfo

/-- Is `c` one of the characters `std::isspace` accepts in the default
locale (space, tab, newline, vertical tab, form feed, carriage return)? -/
def isSpaceChar (c : Char) : Bool :=
  c == ' ' || c == '\t' || c == '\n' || c == '\x0b' || c == '\x0c' || c == '\r'

/-- `boost::algorithm::trim`: drop whitespace from both ends. -/
def trimChars (l : List Char) : List Char :=
  ((l.dropWhile isSpaceChar).reverse.dropWhile isSpaceChar).reverse

/-- Is `pre` a prefix of `l`?  Used for the substring search below and for
the `filename.find("node") == 0` test of `InitNuma`. -/
def listPrefixOf : List Char → List Char → Bool
  | [], _ => true
  | _ :: _, [] => false
  | a :: as, b :: bs => a == b && listPrefixOf as bs

/-- `boost::algorithm::contains(s, pat)`: does `pat` occur in `s` as a
contiguous substring? -/
def containsSub : List Char → List Char → Bool
  | s, pat =>
    listPrefixOf pat s ||
      match s with
      | [] => false
      | _ :: rest => containsSub rest pat

/-- Index of the first `':'` in the line, as in `line.find(':')`. -/
def findColonIdx : List Char → Option Nat
  | [] => none
  | c :: rest =>
    if c == ':' then some 0 else (findColonIdx rest).map (fun i => i + 1)

/-- Flag bit `CpuInfo::SSSE3` (an opaque single bit of the 64-bit mask,
declared in cpu-info.h). -/
def SSSE3 : Nat := 2

/-- Flag bit `CpuInfo::SSE4_1`. -/
def SSE4_1 : Nat := 4

/-- Flag bit `CpuInfo::SSE4_2`. -/
def SSE4_2 : Nat := 8

/-- Flag bit `CpuInfo::POPCNT`. -/
def POPCNT : Nat := 16

/-- Flag bit `CpuInfo::AVX`. -/
def AVX : Nat := 32

/-- Flag bit `CpuInfo::AVX2`. -/
def AVX2 : Nat := 64

/-- Flag bit `CpuInfo::PCLMULQDQ`. -/
def PCLMULQDQ : Nat := 128

/-- The `flag_mappings` table of cpu-info.cc: capability name to bit. -/
def flag_mappings : List (List Char × Nat) :=
  [(String.data "ssse3", SSSE3),
   (String.data "sse4_1", SSE4_1),
   (String.data "sse4_2", SSE4_2),
   (String.data "popcnt", POPCNT),
   (String.data "avx", AVX),
   (String.data "avx2", AVX2),
   (String.data "pclmulqdq", PCLMULQDQ)]

/-- The seven named capability flag bits. -/
def capabilityFlags : List Nat := flag_mappings.map (fun p => p.2)

/-- `ParseCPUFlags(values)`: OR together the bit of every entry of
`flag_mappings` whose name occurs in `values` as a substring
(`boost::algorithm::contains`). -/
def ParseCPUFlags (values : List Char) : Nat :=
  flag_mappings.foldl
    (fun flags p => if containsSub values p.1 then Nat.lor flags p.2 else flags) 0

/-- The static state of class `CpuInfo` that the feature registry and the
descriptor-table scan touch: `initialized_`, `hardware_flags_` (the enabled
mask), `original_hardware_flags_` (the hardware-supported snapshot),
`cycles_per_ms_`, `num_cores_`, `model_name_`. -/
structure State where
  initialized : Bool
  hardware_flags : Nat
  original_hardware_flags : Nat
  cycles_per_ms : Nat
  num_cores : Nat
  model_name : List Char
deriving DecidableEq, Repr

/-- Modelled from the spec (`IsSupported` is declared in cpu-info.h, which is
not part of the sources here): true iff the currently *enabled* mask
`hardware_flags_` contains the bit, not the hardware-supported mask —
"a feature force-disabled for testing must report unsupported to callers". -/
def IsSupported (s : State) (flag : Nat) : Bool :=
  Nat.land s.hardware_flags flag != 0

/-- Accumulator of the `/proc/cpuinfo` scan loop of `CpuInfo::Init`:
the local variables `max_mhz` and `num_cores` together with the statics
the loop writes (`hardware_flags_`, `model_name_`). -/
structure ScanAcc where
  hardware_flags : Nat
  max_mhz : Nat
  num_cores : Nat
  model_name : List Char
deriving DecidableEq, Repr

/-- Models C `atof` restricted to nonnegative integral text: the value of the
leading run of decimal digits.  (Float semantics are not modelled; no claim
exercises a fractional or exponent form.) -/
def atofNat (l : List Char) : Nat :=
  (l.takeWhile (fun c => c.isDigit)).foldl (fun n c => n * 10 + (c.toNat - 48)) 0

/-- The name field of a descriptor line: `line.substr(0, colon - 1)`
trimmed.  When the colon is at position 0 the C++ `colon - 1` underflows to
`npos` and `substr` returns the whole line. -/
def lineName (line : List Char) (colon : Nat) : List Char :=
  trimChars (if colon = 0 then line else line.take (colon - 1))

/-- The value field of a descriptor line: `line.substr(colon + 1)` trimmed. -/
def lineValue (line : List Char) (colon : Nat) : List Char :=
  trimChars (line.drop (colon + 1))

/-- One iteration of the scan loop of `CpuInfo::Init` on one line of the
descriptor table. -/
def processLine (acc : ScanAcc) (line : List Char) : ScanAcc :=
  match findColonIdx line with
  | none => acc
  | some colon =>
    let name := lineName line colon
    let value := lineValue line colon
    if name == String.data "flags" then
      { acc with hardware_flags := Nat.lor acc.hardware_flags (ParseCPUFlags value) }
    else if name == String.data "cpu MHz" then
      { acc with max_mhz := max (atofNat value) acc.max_mhz }
    else if name == String.data "processor" then
      { acc with num_cores := acc.num_cores + 1 }
    else if name == String.data "model name" then
      { acc with model_name := value }
    else acc

/-- Does the line parse to one of the four recognized record names
(`flags`, `cpu MHz`, `processor`, `model name`)? -/
def lineRecognized (line : List Char) : Bool :=
  match findColonIdx line with
  | none => false
  | some colon =>
    let name := lineName line colon
    name == String.data "flags" || name == String.data "cpu MHz" ||
      name == String.data "processor" || name == String.data "model name"

/-- `CpuInfo::Init`, descriptor-table part: scan the lines of
`/proc/cpuinfo` (given here as the list of lines read), then derive
`cycles_per_ms_` (fallback 1,000,000), `original_hardware_flags_`, and
`num_cores_` (the `processor` count, defaulting to 1, overridden by
`FLAGS_num_cores` when positive).  The statics start at their initial
values: empty mask, model name "unknown". -/
def Init (lines : List (List Char)) (flags_num_cores : Nat) : State :=
  let acc := lines.foldl processLine
    { hardware_flags := 0, max_mhz := 0, num_cores := 0,
      model_name := String.data "unknown" }
  let base_cores := if 0 < acc.num_cores then acc.num_cores else 1
  { initialized := true
    hardware_flags := acc.hardware_flags
    original_hardware_flags := acc.hardware_flags
    cycles_per_ms := if acc.max_mhz ≠ 0 then acc.max_mhz * 1000 else 1000000
    num_cores := if 0 < flags_num_cores then flags_num_cores else base_cores
    model_name := acc.model_name }

/-- The `Status` result type: OK or an error carrying a message. -/
inductive Status where
  | OK : Status
  | Error : String → Status
deriving DecidableEq, Repr

/-- The error message of `CpuInfo::EnforceCpuRequirements`. -/
def avx2ErrorMessage : String :=
  "This machine does not meet the minimum requirements for Impala functionality. The CPU does not support AVX2 (Advanced Vector Extensions 2)."

/-- `CpuInfo::EnforceCpuRequirements`, x86_64 branch: return an error status
when `IsSupported(AVX2)` is false, OK otherwise. -/
def EnforceCpuRequirements (s : State) : Status :=
  if !(IsSupported s AVX2) then Status.Error avx2ErrorMessage else Status.OK

/-- The two fatal outcomes the module can hit: a failed DCHECK assertion,
and an out-of-bounds vector index (undefined behaviour in the C++). -/
inductive Fatal where
  | dcheck : Fatal
  | indexOOB : Fatal
deriving DecidableEq, Repr

/-- `hardware_flags_ &= ~flag`: clear the bits of `flag` from `a`, written as
`a ^^^ (a &&& flag)` so it evaluates; `clearBits_eq_ldiff` below shows it is
the and-not operation bit for bit. -/
def clearBits (a flag : Nat) : Nat := Nat.xor a (Nat.land a flag)

/-- `CpuInfo::EnableFeature(flag, enable)`: DCHECK `initialized_`; disabling
clears the bit from the enabled mask unconditionally; enabling DCHECKs that
the original hardware-supported mask contains the bit, then sets it. -/
def EnableFeature (s : State) (flag : Nat) (enable : Bool) : Except Fatal State :=
  if s.initialized = false then Except.error Fatal.dcheck
  else if enable = false then
    Except.ok { s with hardware_flags := clearBits s.hardware_flags flag }
  else if Nat.land s.original_hardware_flags flag = 0 then
    Except.error Fatal.dcheck
  else
    Except.ok { s with hardware_flags := Nat.lor s.hardware_flags flag }

/-- `CpuInfo::GetCurrentCore`: without `sched_getcpu` support return 0; if
the OS query returns a negative sentinel return 0; if it reports an id at or
above `max_num_cores_` fold it into range by modulo (after a rate-limited
warning); otherwise return it unchanged. -/
def GetCurrentCore (max_num_cores : Nat) (have_sched_getcpu : Bool)
    (os_cpu : Int) : Nat :=
  if have_sched_getcpu = false then 0
  else if os_cpu < 0 then 0
  else if max_num_cores ≤ os_cpu.toNat then os_cpu.toNat % max_num_cores
  else os_cpu.toNat

/-- The static NUMA state of class `CpuInfo`: `max_num_numa_nodes_`,
`core_to_numa_node_` (an array of `max_num_cores_` entries),
`numa_node_to_cores_` and `numa_node_core_idx_`. -/
structure NumaState where
  max_num_numa_nodes : Nat
  core_to_numa_node : List Nat
  numa_node_to_cores : List (List Nat)
  numa_node_core_idx : List Nat
deriving DecidableEq, Repr

/-- The loop of `CpuInfo::InitNumaNodeToCores`: for each core in ascending
order, look up its node's bucket `numa_node_to_cores_[core_to_numa_node_[core]]`,
record the bucket's current size as the core's local index, and push the core
onto the bucket.  The C++ vector indexing is unchecked; an assigned node id
at or past the bucket count is out-of-bounds access, modelled as `none`. -/
def numaBuild : List Nat → Nat → List (List Nat) → List Nat →
    Option (List (List Nat) × List Nat)
  | [], _, buckets, idxs => some (buckets, idxs)
  | node :: rest, core, buckets, idxs =>
    if h : node < buckets.length then
      numaBuild rest (core + 1)
        (buckets.set node (buckets[node] ++ [core]))
        (idxs ++ [buckets[node].length])
    else none

/-- `CpuInfo::InitNumaNodeToCores`: starting from `max_num_numa_nodes_` empty
buckets (the `resize` after the `clear`), run the derivation loop over the
complete `core_to_numa_node_` array; `numa_node_core_idx_` is rebuilt in full
(every entry is overwritten), so it is produced fresh here. -/
def InitNumaNodeToCores (maxNodes : Nat) (ctn : List Nat) :
    Option (List (List Nat) × List Nat) :=
  numaBuild ctn 0 (List.replicate maxNodes []) []

/-- Shared tail of `InitNuma` and `InitFakeNumaForTest`: commit the node
count and the core-to-node assignment, then run the derivation pass. -/
def finishNuma (maxNodes : Nat) (ctn : List Nat) : Except Fatal NumaState :=
  match InitNumaNodeToCores maxNodes ctn with
  | some p =>
    Except.ok { max_num_numa_nodes := maxNodes, core_to_numa_node := ctn,
                numa_node_to_cores := p.1, numa_node_core_idx := p.2 }
  | none => Except.error Fatal.indexOOB

/-- The parts of the filesystem `CpuInfo::InitNuma` consults: whether
`/sys/devices/system/node` exists, the filenames it contains, and whether
the link `/sys/devices/system/cpu/cpu<core>/node<node>` exists. -/
structure NumaEnv where
  node_dir_exists : Bool
  node_subdirs : List (List Char)
  cpu_node_link : Nat → Nat → Bool

/-- The node count `InitNuma` derives from the node directory listing: the
number of entries whose filename starts with `node`
(`filename.find("node") == 0`), with fallback 1 when none match. -/
def numaDirNodeCount (env : NumaEnv) : Nat :=
  let c := (env.node_subdirs.filter (fun s => listPrefixOf (String.data "node") s)).length
  if c = 0 then 1 else c

/-- The discovery loop of `InitNuma`: each core gets the first node (in
increasing order) whose `/sys/devices/system/cpu/cpu<core>/node<node>` link
exists, and node 0 (with a warning) when no node claims it. -/
def discoveredCtn (env : NumaEnv) (max_num_cores : Nat) : List Nat :=
  (List.range max_num_cores).map (fun core =>
    match (List.range (numaDirNodeCount env)).find?
        (fun node => env.cpu_node_link core node) with
    | some node => node
    | none => 0)

/-- `CpuInfo::InitNuma`: if the node directory is absent, fall back to one
NUMA node with every core assigned node 0; otherwise use the discovered
node count and core assignment; in both cases run the derivation pass. -/
def InitNuma (env : NumaEnv) (max_num_cores : Nat) : Except Fatal NumaState :=
  if env.node_dir_exists = false then
    finishNuma 1 (List.replicate max_num_cores 0)
  else
    finishNuma (numaDirNodeCount env) (discoveredCtn env max_num_cores)

/-- `CpuInfo::InitFakeNumaForTest`: DCHECK that the injected array has
exactly `max_num_cores_` entries (fatal contract violation otherwise), copy
it over `core_to_numa_node_`, clear `numa_node_to_cores_`, and rebuild both
derived maps with the same derivation pass as discovery.  Every field of the
prior state is overwritten, so `prev` is dead. -/
def InitFakeNumaForTest (max_num_cores : Nat) (_prev : NumaState)
    (max_num_numa_nodes : Nat) (core_to_numa_node : List Nat) :
    Except Fatal NumaState :=
  if core_to_numa_node.length ≠ max_num_cores then Except.error Fatal.dcheck
  else finishNuma max_num_numa_nodes core_to_numa_node

/-- Closed form of the buckets the derivation pass produces: bucket `n` is
the ascending list of cores assigned node `n`. -/
def bucketsSpec (maxNodes : Nat) (ctn : List Nat) : List (List Nat) :=
  (List.range maxNodes).map
    (fun n => (List.range ctn.length).filter (fun c => ctn.getD c 0 == n))

/-- Closed form of the local-index list the derivation pass produces: the
local index of core `c` is the number of earlier cores sharing its node. -/
def idxSpec (ctn : List Nat) : List Nat :=
  (List.range ctn.length).map
    (fun c => ((List.range c).filter (fun x => ctn.getD x 0 == ctn.getD c 0)).length)

/-- A one-record descriptor table whose flags line carries `avx2`. -/
def c1Table : List (List Char) := [String.data "flags : avx2"]

/-- The state right after `Init` on `c1Table`. -/
def c1InitState : State := Init c1Table 0

/-- The state after additionally force-disabling AVX2 with
`EnableFeature(AVX2, false)`. -/
def c1DisabledState : State :=
  match EnableFeature c1InitState AVX2 false with
  | Except.ok s => s
  | Except.error _ => c1InitState

/-- The synthetic descriptor table of the parsing scenario: a flags record
listing `ssse3 sse4_1 avx2` and two processor records. -/
def c2lines : List (List Char) :=
  [String.data "flags : ssse3 sse4_1 avx2",
   String.data "processor : 0",
   String.data "processor : 1"]

/-- An initialized feature state whose hardware supports exactly the bits
parsed from `ssse3 sse4_1 avx2` (mask 102). -/
def c4WitnessState : State :=
  { initialized := true, hardware_flags := 102, original_hardware_flags := 102,
    cycles_per_ms := 1000000, num_cores := 2, model_name := String.data "unknown" }

/-- An initialized feature state with an empty hardware-supported mask. -/
def c5WitnessState : State :=
  { initialized := true, hardware_flags := 0, original_hardware_flags := 0,
    cycles_per_ms := 1000000, num_cores := 1, model_name := String.data "unknown" }

/-- A descriptor table with no recognized record in it. -/
def c8GarbageLines : List (List Char) :=
  [String.data "hello world", String.data "",
   String.data "foo = bar", String.data "model : something"]

/-- A filesystem view without the `/sys/devices/system/node` directory. -/
def noNumaEnv : NumaEnv :=
  { node_dir_exists := false, node_subdirs := [], cpu_node_link := fun _ _ => false }

/-- A stale NUMA state standing for the result of a prior discovery. -/
def stalePriorNuma : NumaState :=
  { max_num_numa_nodes := 1, core_to_numa_node := [0, 0],
    numa_node_to_cores := [[0, 1]], numa_node_core_idx := [0, 1] }

end CpuInfo

namespace CpuInfo

theorem land_eq_hand (a b : Nat) : Nat.land a b = a &&& b := rfl

theorem lor_eq_hor (a b : Nat) : Nat.lor a b = a ||| b := rfl

theorem xor_eq_hxor (a b : Nat) : Nat.xor a b = a ^^^ b := rfl

theorem testBit_clearBits (a f i : Nat) :
    (clearBits a f).testBit i = (a.testBit i && !f.testBit i) := by
  rw [clearBits, xor_eq_hxor, land_eq_hand, Nat.testBit_xor, Nat.testBit_land]
  cases a.testBit i <;> cases f.testBit i <;> rfl

theorem clearBits_eq_ldiff (a f : Nat) : clearBits a f = Nat.ldiff a f := by
  apply Nat.eq_of_testBit_eq
  intro i
  rw [testBit_clearBits, Nat.testBit_ldiff]

theorem land_zero_right (a : Nat) : Nat.land a 0 = 0 := by
  apply Nat.eq_of_testBit_eq
  intro i
  rw [land_eq_hand, Nat.testBit_land, Nat.zero_testBit]
  cases a.testBit i <;> rfl

theorem land_clearBits_self (a f : Nat) : Nat.land (clearBits a f) f = 0 := by
  apply Nat.eq_of_testBit_eq
  intro i
  rw [land_eq_hand, Nat.testBit_land, testBit_clearBits, Nat.zero_testBit]
  cases a.testBit i <;> cases f.testBit i <;> rfl

theorem land_lor_self (a f : Nat) : Nat.land (Nat.lor a f) f = f := by
  apply Nat.eq_of_testBit_eq
  intro i
  rw [land_eq_hand, lor_eq_hor, Nat.testBit_land, Nat.testBit_lor]
  cases a.testBit i <;> cases f.testBit i <;> rfl

/-- C1, counterexample: force-disabling AVX2 after an `Init` that found it
yields a state whose hardware-supported mask still contains AVX2, yet
`EnforceCpuRequirements` does not return OK — so the check is not against
the hardware-supported mask. -/
theorem c1_counterexample :
    EnableFeature c1InitState AVX2 false = Except.ok c1DisabledState ∧
    Nat.land c1DisabledState.original_hardware_flags AVX2 = AVX2 ∧
    EnforceCpuRequirements c1DisabledState ≠ Status.OK := by
  refine ⟨rfl, by decide, by decide⟩

/-- C1, amended: on x86_64, `EnforceCpuRequirements` returns the descriptive
AVX2 error status exactly when AVX2 is absent from the currently *enabled*
mask (`IsSupported`), and OK otherwise; immediately after `Init` the enabled
mask equals the hardware-supported mask, so the startup check coincides with
a hardware-support check, and it is a returned status, never a crash. -/
theorem c1_amended_enforce_checks_enabled_mask (s : State) :
    EnforceCpuRequirements s =
      (if IsSupported s AVX2 then Status.OK else Status.Error avx2ErrorMessage) ∧
    (∀ lines flags_num_cores,
      (Init lines flags_num_cores).hardware_flags =
        (Init lines flags_num_cores).original_hardware_flags) := by
  constructor
  · unfold EnforceCpuRequirements
    cases h : IsSupported s AVX2 <;> simp [h]
  · intro lines flags_num_cores
    rfl

/-- C2, counterexample: on the table `flags : ssse3 sse4_1 avx2`, the flag
parser's substring matching also finds `avx` (inside `avx2`), so
`IsSupported(AVX)` is true, contradicting the claim that every flag other
than the three listed ones is unsupported. -/
theorem c2_counterexample : IsSupported (Init c2lines 0) AVX = true := by decide

/-- C2, amended: parsing the synthetic table yields `activeCores = 2` and
`IsSupported` true for exactly ssse3, sse4_1, avx2 and additionally avx
(whose name occurs as a substring of `avx2`), and false for the remaining
flags sse4_2, popcnt, pclmulqdq. -/
theorem c2_amended_parse_table :
    (Init c2lines 0).num_cores = 2 ∧
    IsSupported (Init c2lines 0) SSSE3 = true ∧
    IsSupported (Init c2lines 0) SSE4_1 = true ∧
    IsSupported (Init c2lines 0) AVX2 = true ∧
    IsSupported (Init c2lines 0) AVX = true ∧
    IsSupported (Init c2lines 0) SSE4_2 = false ∧
    IsSupported (Init c2lines 0) POPCNT = false ∧
    IsSupported (Init c2lines 0) PCLMULQDQ = false := by decide

/-- C4: in any initialized state, for every capability flag,
`EnableFeature(flag, false)` succeeds and makes `IsSupported(flag)` false;
and when the original hardware-supported mask contains the flag, a
subsequent `EnableFeature(flag, true)` succeeds and restores
`IsSupported(flag)` to true. -/
theorem c4_enable_feature_roundtrip (s : State) (flag : Nat)
    (_hflag : flag ∈ capabilityFlags) (hinit : s.initialized = true) :
    ∃ s1, EnableFeature s flag false = Except.ok s1 ∧
      IsSupported s1 flag = false ∧
      (Nat.land s.original_hardware_flags flag ≠ 0 →
        ∃ s2, EnableFeature s1 flag true = Except.ok s2 ∧
          IsSupported s2 flag = true) := by
  refine ⟨{ s with hardware_flags := clearBits s.hardware_flags flag }, ?_, ?_, ?_⟩
  · simp [EnableFeature, hinit]
  · simp [IsSupported, land_clearBits_self]
  · intro hsup
    have hfz : flag ≠ 0 := by
      intro h0
      rw [h0, land_zero_right] at hsup
      exact hsup rfl
    refine ⟨{ s with hardware_flags := Nat.lor (clearBits s.hardware_flags flag) flag }, ?_, ?_⟩
    · simp [EnableFeature, hinit, hsup]
    · simp [IsSupported, land_lor_self, hfz]

/-- C4, witness: the roundtrip at the AVX2 flag in a state whose hardware
mask is the one parsed from `ssse3 sse4_1 avx2`. -/
theorem c4_enable_feature_roundtrip_witness :
    AVX2 ∈ capabilityFlags ∧ c4WitnessState.initialized = true ∧
    Nat.land c4WitnessState.original_hardware_flags AVX2 ≠ 0 ∧
    (∃ s1, EnableFeature c4WitnessState AVX2 false = Except.ok s1 ∧
      IsSupported s1 AVX2 = false ∧
      (Nat.land c4WitnessState.original_hardware_flags AVX2 ≠ 0 →
        ∃ s2, EnableFeature s1 AVX2 true = Except.ok s2 ∧
          IsSupported s2 AVX2 = true)) :=
  ⟨by decide, rfl, by decide,
    c4_enable_feature_roundtrip c4WitnessState AVX2 (by decide) rfl⟩

/-- C5: in an initialized state, enabling a flag whose bit is absent from the
original hardware-supported mask hits the DCHECK and terminates the process;
it never returns a successfully updated state. -/
theorem c5_enable_unsupported_fatal (s : State) (flag : Nat)
    (hinit : s.initialized = true)
    (habsent : Nat.land s.original_hardware_flags flag = 0) :
    EnableFeature s flag true = Except.error Fatal.dcheck := by
  simp [EnableFeature, hinit, habsent]

/-- C5, witness: enabling AVX2 in a state whose hardware supports nothing
is fatal. -/
theorem c5_enable_unsupported_fatal_witness :
    c5WitnessState.initialized = true ∧
    Nat.land c5WitnessState.original_hardware_flags AVX2 = 0 ∧
    EnableFeature c5WitnessState AVX2 true = Except.error Fatal.dcheck :=
  ⟨rfl, rfl, c5_enable_unsupported_fatal c5WitnessState AVX2 rfl rfl⟩

/-- C6: whenever at least one core exists, `GetCurrentCore` returns a value
below `max_num_cores`; a negative OS answer yields 0, and an answer at or
above `max_num_cores` is folded into range by modulo. -/
theorem c6_get_current_core_in_range (max_num_cores : Nat)
    (hpos : 0 < max_num_cores) (have_sched_getcpu : Bool) (os_cpu : Int) :
    GetCurrentCore max_num_cores have_sched_getcpu os_cpu < max_num_cores ∧
    (os_cpu < 0 → GetCurrentCore max_num_cores true os_cpu = 0) ∧
    (max_num_cores ≤ os_cpu.toNat →
      GetCurrentCore max_num_cores true os_cpu = os_cpu.toNat % max_num_cores) := by
  refine ⟨?_, ?_, ?_⟩
  · unfold GetCurrentCore
    by_cases hb : have_sched_getcpu = false
    · simp [hb, hpos]
    · by_cases hneg : os_cpu < 0
      · simp [hb, hneg, hpos]
      · by_cases hge : max_num_cores ≤ os_cpu.toNat
        · simp [hb, hneg, hge]
          exact Nat.mod_lt _ hpos
        · simp [hb, hneg, hge]
          omega
  · intro hneg
    simp [GetCurrentCore, hneg]
  · intro hge
    have hneg : ¬os_cpu < 0 := by omega
    simp [GetCurrentCore, hneg, hge]

/-- C6, witness: with 4 cores, an injected OS answer of 7 folds to 3. -/
theorem c6_get_current_core_in_range_witness :
    GetCurrentCore 4 true 7 < 4 ∧
    ((7 : Int) < 0 → GetCurrentCore 4 true 7 = 0) ∧
    (4 ≤ (7 : Int).toNat → GetCurrentCore 4 true 7 = (7 : Int).toNat % 4) :=
  c6_get_current_core_in_range 4 (by decide) true 7

theorem processLine_unrecognized (acc : ScanAcc) (line : List Char)
    (h : lineRecognized line = false) : processLine acc line = acc := by
  unfold lineRecognized at h
  unfold processLine
  cases hc : findColonIdx line with
  | none => rfl
  | some colon =>
    rw [hc] at h
    simp only [Bool.or_eq_false_iff] at h
    simp [h.1.1.1, h.1.1.2, h.1.2, h.2]

theorem foldl_unrecognized (lines : List (List Char)) (acc : ScanAcc)
    (h : ∀ l ∈ lines, lineRecognized l = false) :
    lines.foldl processLine acc = acc := by
  induction lines generalizing acc with
  | nil => rfl
  | cons a t ih =>
    rw [List.foldl_cons, processLine_unrecognized acc a (h a (by simp))]
    exact ih acc (fun l hl => h l (by simp [hl]))

/-- C8: when the descriptor table is empty or contains no recognized record
(and the num_cores override is 0), `Init` yields one active core, model name
"unknown", the fallback clock estimate 1,000,000, and an empty enabled (and
hardware-supported) capability mask. -/
theorem c8_degraded_defaults (lines : List (List Char))
    (h : ∀ l ∈ lines, lineRecognized l = false) :
    (Init lines 0).num_cores = 1 ∧
    (Init lines 0).model_name = String.data "unknown" ∧
    (Init lines 0).cycles_per_ms = 1000000 ∧
    (Init lines 0).hardware_flags = 0 ∧
    (Init lines 0).original_hardware_flags = 0 := by
  have hacc : lines.foldl processLine
      { hardware_flags := 0, max_mhz := 0, num_cores := 0,
        model_name := String.data "unknown" } =
      { hardware_flags := 0, max_mhz := 0, num_cores := 0,
        model_name := String.data "unknown" } :=
    foldl_unrecognized lines _ h
  simp only [Init, hacc]
  decide

/-- C8, witness: the degraded defaults on a concrete garbage table. -/
theorem c8_degraded_defaults_witness :
    (∀ l ∈ c8GarbageLines, lineRecognized l = false) ∧
    ((Init c8GarbageLines 0).num_cores = 1 ∧
      (Init c8GarbageLines 0).model_name = String.data "unknown" ∧
      (Init c8GarbageLines 0).cycles_per_ms = 1000000 ∧
      (Init c8GarbageLines 0).hardware_flags = 0 ∧
      (Init c8GarbageLines 0).original_hardware_flags = 0) :=
  ⟨by decide, c8_degraded_defaults c8GarbageLines (by decide)⟩

theorem getD_append_lt {α : Type} (l1 l2 : List α) (i : Nat) (d : α)
    (h : i < l1.length) : (l1 ++ l2).getD i d = l1.getD i d := by
  induction l1 generalizing i with
  | nil => simp at h
  | cons a t ih =>
    cases i with
    | zero => rfl
    | succ j => exact ih j (by simpa using h)

theorem getD_append_length_add {α : Type} (l1 l2 : List α) (j : Nat) (d : α) :
    (l1 ++ l2).getD (l1.length + j) d = l2.getD j d := by
  induction l1 with
  | nil => simp
  | cons a t ih =>
    have hn : (a :: t).length + j = (t.length + j) + 1 := by
      simp [List.length_cons]
      omega
    rw [List.cons_append, hn]
    exact ih

theorem getD_set_self {α : Type} (l : List α) (i : Nat) (x d : α)
    (h : i < l.length) : (l.set i x).getD i d = x := by
  induction l generalizing i with
  | nil => simp at h
  | cons a t ih =>
    cases i with
    | zero => rfl
    | succ j => exact ih j (by simpa using h)

theorem getD_set_other {α : Type} (l : List α) (i j : Nat) (x d : α)
    (h : i ≠ j) : (l.set i x).getD j d = l.getD j d := by
  induction l generalizing i j with
  | nil => rfl
  | cons a t ih =>
    cases i with
    | zero =>
      cases j with
      | zero => exact absurd rfl h
      | succ k => rfl
    | succ i2 =>
      cases j with
      | zero => rfl
      | succ k => exact ih i2 k (fun he => h (by rw [he]))

theorem getD_replicate {α : Type} (n i : Nat) (x d : α) (h : i < n) :
    (List.replicate n x).getD i d = x := by
  induction n generalizing i with
  | zero => omega
  | succ m ih =>
    cases i with
    | zero => rfl
    | succ j => exact ih j (by omega)

theorem getD_mem_of_lt {α : Type} (l : List α) (i : Nat) (d : α)
    (h : i < l.length) : l.getD i d ∈ l := by
  induction l generalizing i with
  | nil => simp at h
  | cons a t ih =>
    cases i with
    | zero => exact List.mem_cons_self a t
    | succ j => exact List.mem_cons_of_mem a (ih j (by simpa using h))

theorem list_eq_of_getD {α : Type} (d : α) :
    ∀ (l1 l2 : List α), l1.length = l2.length →
      (∀ i, i < l1.length → l1.getD i d = l2.getD i d) → l1 = l2
  | [], [], _, _ => rfl
  | [], _ :: _, h, _ => by simp at h
  | _ :: _, [], h, _ => by simp at h
  | a :: t1, b :: t2, h, hp => by
    have h0 : a = b := hp 0 (by simp)
    have ht : t1 = t2 :=
      list_eq_of_getD d t1 t2 (by simpa using h)
        (fun i hi => hp (i + 1) (by simp; omega))
    rw [h0, ht]

theorem map_eq_replicate {α β : Type} (l : List α) (f : α → β) (b : β)
    (h : ∀ a ∈ l, f a = b) : l.map f = List.replicate l.length b := by
  induction l with
  | nil => rfl
  | cons a t ih =>
    rw [List.map_cons, List.length_cons, List.replicate_succ,
      h a (List.mem_cons_self a t), ih (fun x hx => h x (List.mem_cons_of_mem a hx))]

theorem getD_map_range {β : Type} (f : Nat → β) (m n : Nat) (d : β)
    (h : n < m) : ((List.range m).map f).getD n d = f n := by
  induction m with
  | zero => omega
  | succ k ih =>
    rw [List.range_succ, List.map_append]
    simp only [List.map_cons, List.map_nil]
    rcases Nat.lt_or_ge n k with hlt | hge
    · rw [getD_append_lt _ _ _ _ (by simpa using hlt)]
      exact ih hlt
    · have hnk : n = k := by omega
      subst hnk
      have hlen : ((List.range n).map f).length = n := by simp
      have happ := getD_append_length_add ((List.range n).map f) [f n] 0 d
      rw [hlen, Nat.add_zero] at happ
      rw [happ]
      rfl

theorem bucketsSpec_length (maxNodes : Nat) (ctn : List Nat) :
    (bucketsSpec maxNodes ctn).length = maxNodes := by
  simp [bucketsSpec]

theorem bucketsSpec_getD (maxNodes : Nat) (ctn : List Nat) (n : Nat)
    (h : n < maxNodes) :
    (bucketsSpec maxNodes ctn).getD n [] =
      (List.range ctn.length).filter (fun c => ctn.getD c 0 == n) :=
  getD_map_range _ _ _ _ h

theorem idxSpec_length (ctn : List Nat) : (idxSpec ctn).length = ctn.length := by
  simp [idxSpec]

theorem idxSpec_getD (ctn : List Nat) (c : Nat) (h : c < ctn.length) :
    (idxSpec ctn).getD c 0 =
      ((List.range c).filter (fun x => ctn.getD x 0 == ctn.getD c 0)).length :=
  getD_map_range _ _ _ _ h

theorem numaBuild_nil (core : Nat) (buckets : List (List Nat)) (idxs : List Nat) :
    numaBuild [] core buckets idxs = some (buckets, idxs) := rfl

theorem numaBuild_cons (node : Nat) (rest : List Nat) (core : Nat)
    (buckets : List (List Nat)) (idxs : List Nat) :
    numaBuild (node :: rest) core buckets idxs =
      if h : node < buckets.length then
        numaBuild rest (core + 1) (buckets.set node (buckets[node] ++ [core]))
          (idxs ++ [buckets[node].length])
      else none := rfl

theorem numaBuild_append (l1 l2 : List Nat) (core : Nat)
    (buckets : List (List Nat)) (idxs : List Nat) :
    numaBuild (l1 ++ l2) core buckets idxs =
      match numaBuild l1 core buckets idxs with
      | some p => numaBuild l2 (core + l1.length) p.1 p.2
      | none => none := by
  induction l1 generalizing core buckets idxs with
  | nil => simp [numaBuild_nil]
  | cons node rest ih =>
    rw [List.cons_append, numaBuild_cons, numaBuild_cons]
    by_cases h : node < buckets.length
    · rw [dif_pos h, dif_pos h, ih]
      have hlen2 : core + (node :: rest).length = (core + 1) + rest.length := by
        simp [List.length_cons]
        omega
      rw [hlen2]
    · rw [dif_neg h, dif_neg h]

theorem bucketsSpec_nil (maxNodes : Nat) :
    bucketsSpec maxNodes [] = List.replicate maxNodes [] := by
  simp only [bucketsSpec, List.length_nil, List.range_zero, List.filter_nil]
  rw [map_eq_replicate _ _ ([] : List Nat) (fun _ _ => rfl), List.length_range]

theorem bucketsSpec_snoc (maxNodes : Nat) (l : List Nat) (a : Nat)
    (ha : a < maxNodes) :
    bucketsSpec maxNodes (l ++ [a]) =
      (bucketsSpec maxNodes l).set a
        ((bucketsSpec maxNodes l).getD a [] ++ [l.length]) := by
  apply list_eq_of_getD ([] : List Nat)
  · rw [bucketsSpec_length, List.length_set, bucketsSpec_length]
  · intro n hn
    rw [bucketsSpec_length] at hn
    have hlen : (l ++ [a]).length = l.length + 1 := by simp
    rw [bucketsSpec_getD _ _ _ hn, hlen, List.range_succ, List.filter_append]
    have hfirst :
        (List.range l.length).filter (fun c => (l ++ [a]).getD c 0 == n) =
          (List.range l.length).filter (fun c => l.getD c 0 == n) := by
      apply List.filter_congr
      intro c hc
      rw [getD_append_lt _ _ _ _ (List.mem_range.mp hc)]
    have hlast : (l ++ [a]).getD l.length 0 = a := by
      have happ := getD_append_length_add l [a] 0 (0 : Nat)
      rw [Nat.add_zero] at happ
      rw [happ]
      rfl
    by_cases hna : n = a
    · subst hna
      rw [getD_set_self _ _ _ _ (by rw [bucketsSpec_length]; exact hn)]
      rw [hfirst, bucketsSpec_getD _ _ _ hn]
      simp [List.filter, hlast]
    · rw [getD_set_other _ _ _ _ _ (fun he => hna (by rw [he]))]
      rw [hfirst, bucketsSpec_getD _ _ _ hn]
      have hne : (a == n) = false := beq_eq_false_iff_ne.mpr (fun he => hna he.symm)
      simp [List.filter, hlast, hne]

theorem idxSpec_snoc (maxNodes : Nat) (l : List Nat) (a : Nat)
    (ha : a < maxNodes) :
    idxSpec (l ++ [a]) =
      idxSpec l ++ [((bucketsSpec maxNodes l).getD a []).length] := by
  unfold idxSpec
  have hlen : (l ++ [a]).length = l.length + 1 := by simp
  rw [hlen, List.range_succ, List.map_append]
  have hlast : (l ++ [a]).getD l.length 0 = a := by
    have happ := getD_append_length_add l [a] 0 (0 : Nat)
    rw [Nat.add_zero] at happ
    rw [happ]
    rfl
  congr 1
  · apply List.map_congr_left
    intro c hc
    have hc2 := List.mem_range.mp hc
    rw [getD_append_lt _ _ _ _ hc2]
    congr 1
    apply List.filter_congr
    intro x hx
    have hxlt : x < l.length := Nat.lt_trans (List.mem_range.mp hx) hc2
    rw [getD_append_lt _ _ _ _ hxlt]
  · rw [List.map_singleton, hlast, bucketsSpec_getD _ _ _ ha]
    congr 2
    apply List.filter_congr
    intro x hx
    rw [getD_append_lt _ _ _ _ (List.mem_range.mp hx)]

theorem numaBuild_closed (maxNodes : Nat) (ctn : List Nat)
    (h : ∀ x ∈ ctn, x < maxNodes) :
    InitNumaNodeToCores maxNodes ctn =
      some (bucketsSpec maxNodes ctn, idxSpec ctn) := by
  induction ctn using List.reverseRecOn with
  | nil =>
    unfold InitNumaNodeToCores numaBuild
    rw [bucketsSpec_nil]
    rfl
  | append_singleton l a ih =>
    have ha : a < maxNodes := h a (by simp)
    have hl : ∀ x ∈ l, x < maxNodes := fun x hx => h x (by simp [hx])
    have hblen : a < (bucketsSpec maxNodes l).length := by
      rw [bucketsSpec_length]
      exact ha
    have hgetD : (bucketsSpec maxNodes l)[a] = (bucketsSpec maxNodes l).getD a [] := by
      rw [List.getD_eq_getElem _ _ hblen]
    unfold InitNumaNodeToCores at ih ⊢
    rw [numaBuild_append, ih hl]
    dsimp only
    simp only [Nat.zero_add]
    rw [numaBuild_cons, dif_pos hblen, numaBuild_nil, hgetD,
      bucketsSpec_snoc maxNodes l a ha, idxSpec_snoc maxNodes l a ha]

theorem count_join_eq (L : List (List Nat)) (c : Nat) :
    L.flatten.count c = (L.map (fun l => l.count c)).sum := by
  induction L with
  | nil => rfl
  | cons a t ih =>
    rw [List.flatten_cons, List.count_append, List.map_cons, List.sum_cons, ih]

theorem count_cons_eq (c a : Nat) (t : List Nat) :
    (a :: t).count c = t.count c + (if c = a then 1 else 0) := by
  rw [List.count_cons]
  by_cases h : c = a
  · subst h
    simp
  · simp [h, Ne.symm h]

theorem count_filter_ite (c : Nat) (p : Nat → Bool) (l : List Nat) :
    (l.filter p).count c = if p c = true then l.count c else 0 := by
  induction l with
  | nil => simp
  | cons a t ih =>
    by_cases hpa : p a = true
    · rw [List.filter_cons_of_pos hpa, count_cons_eq, count_cons_eq, ih]
      by_cases hca : c = a
      · subst hca
        simp [hpa]
      · simp [hca]
    · rw [List.filter_cons_of_neg (by simpa using hpa), count_cons_eq, ih]
      by_cases hca : c = a
      · subst hca
        simp [hpa]
      · simp [hca]

theorem count_range_ite (c m : Nat) :
    (List.range m).count c = if c < m then 1 else 0 := by
  induction m with
  | zero => simp
  | succ k ih =>
    rw [List.range_succ, List.count_append, ih, count_cons_eq]
    have hnil : ([] : List Nat).count c = 0 := rfl
    rw [hnil]
    split_ifs <;> omega

theorem sum_map_zero_fun {α : Type} (l : List α) (f : α → Nat)
    (h : ∀ a ∈ l, f a = 0) : (l.map f).sum = 0 := by
  induction l with
  | nil => rfl
  | cons a t ih =>
    rw [List.map_cons, List.sum_cons, h a (by simp),
      ih (fun x hx => h x (by simp [hx]))]

theorem sum_map_range_indicator (m k v : Nat) (hk : k < m) :
    ((List.range m).map (fun n => if k = n then v else 0)).sum = v := by
  induction m with
  | zero => omega
  | succ j ih =>
    rw [List.range_succ, List.map_append, List.sum_append]
    simp only [List.map_cons, List.map_nil, List.sum_cons, List.sum_nil]
    rcases Nat.lt_or_ge k j with hlt | hge
    · rw [ih hlt]
      have hne : ¬k = j := by omega
      simp [hne]
    · have hkj : k = j := by omega
      subst hkj
      rw [sum_map_zero_fun _ _ (fun n hn => by
        have hlt2 := List.mem_range.mp hn
        rw [if_neg (show ¬k = n by omega)])]
      simp

theorem bucketsSpec_join_count (maxNodes : Nat) (ctn : List Nat)
    (h : ∀ x ∈ ctn, x < maxNodes) (c : Nat) :
    (bucketsSpec maxNodes ctn).flatten.count c = if c < ctn.length then 1 else 0 := by
  have h1 : (bucketsSpec maxNodes ctn).flatten.count c =
      ((List.range maxNodes).map
        (fun n => ((List.range ctn.length).filter
          (fun x => ctn.getD x 0 == n)).count c)).sum := by
    rw [count_join_eq]
    unfold bucketsSpec
    rw [List.map_map]
    rfl
  rw [h1]
  have h2 : ((List.range maxNodes).map
      (fun n => ((List.range ctn.length).filter
        (fun x => ctn.getD x 0 == n)).count c)).sum =
      ((List.range maxNodes).map
        (fun n => if ctn.getD c 0 = n then
          (if c < ctn.length then 1 else 0) else 0)).sum := by
    congr 1
    apply List.map_congr_left
    intro n _
    rw [count_filter_ite, count_range_ite]
    by_cases hc : (ctn.getD c 0 == n) = true
    · rw [if_pos hc, if_pos (beq_iff_eq.mp hc)]
    · rw [if_neg hc, if_neg (fun he => hc (beq_iff_eq.mpr he))]
  rw [h2]
  by_cases hclen : c < ctn.length
  · have hk : ctn.getD c 0 < maxNodes := h _ (getD_mem_of_lt _ _ _ hclen)
    simp only [hclen, if_true]
    exact sum_map_range_indicator maxNodes (ctn.getD c 0) 1 hk
  · simp only [hclen, if_false]
    apply sum_map_zero_fun
    intro n _
    simp [hclen]

theorem filter_range_getD_position (p : Nat → Bool) (len c : Nat)
    (hc : c < len) (hp : p c = true) :
    ((List.range len).filter p).getD (((List.range c).filter p).length) 0 = c := by
  obtain ⟨k, hk⟩ : ∃ k, len - c = k + 1 := ⟨len - c - 1, by omega⟩
  have hlen2 : len = c + (k + 1) := by omega
  subst hlen2
  rw [List.range_add, List.filter_append]
  rw [show ((List.range c).filter p).length =
    ((List.range c).filter p).length + 0 from (Nat.add_zero _).symm,
    getD_append_length_add]
  rw [List.range_succ_eq_map, List.map_cons]
  rw [show c + 0 = c from Nat.add_zero c]
  rw [List.filter_cons_of_pos hp]
  rfl

theorem numaBuild_isSome_iff :
    ∀ (l : List Nat) (core : Nat) (buckets : List (List Nat)) (idxs : List Nat),
      (numaBuild l core buckets idxs).isSome = true ↔
        ∀ x ∈ l, x < buckets.length := by
  intro l
  induction l with
  | nil =>
    intro core buckets idxs
    simp [numaBuild_nil]
  | cons node rest ih =>
    intro core buckets idxs
    rw [numaBuild_cons]
    by_cases h : node < buckets.length
    · rw [dif_pos h, ih]
      rw [List.length_set]
      constructor
      · intro hall x hx
        rcases List.mem_cons.mp hx with rfl | hx2
        · exact h
        · exact hall x hx2
      · intro hall x hx
        exact hall x (List.mem_cons_of_mem _ hx)
    · rw [dif_neg h]
      simp only [Option.isSome_none]
      constructor
      · intro hfalse
        exact absurd hfalse Bool.false_ne_true
      · intro hall
        exact absurd (hall node (List.mem_cons_self _ _)) h

theorem finishNuma_ok (maxNodes : Nat) (ctn : List Nat)
    (h : ∀ x ∈ ctn, x < maxNodes) :
    finishNuma maxNodes ctn = Except.ok
      { max_num_numa_nodes := maxNodes, core_to_numa_node := ctn,
        numa_node_to_cores := bucketsSpec maxNodes ctn,
        numa_node_core_idx := idxSpec ctn } := by
  unfold finishNuma
  rw [numaBuild_closed maxNodes ctn h]

/-- C3: when every entry of the core-to-node map names an existing node, the
derivation pass succeeds and produces: one bucket per node; bucket `n`
exactly the ascending list of the cores assigned node `n` (stated as the
filter of the core range, plus sortedness and the membership
characterization); a flattening that contains every core id in
`[0, maxCores)` exactly once and nothing else; and local indices satisfying
`NodeToCoresMap[CoreToNodeMap[c]][CoreNodeLocalIndex[c]] = c` for every
core `c`. -/
theorem c3_derivation_invariants (maxNodes : Nat) (ctn : List Nat)
    (hmem : ∀ x ∈ ctn, x < maxNodes) :
    ∃ ntc idx, InitNumaNodeToCores maxNodes ctn = some (ntc, idx) ∧
      ntc.length = maxNodes ∧
      (∀ n, n < maxNodes →
        ntc.getD n [] =
          (List.range ctn.length).filter (fun c => ctn.getD c 0 == n)) ∧
      (∀ n, n < maxNodes → List.Pairwise (fun a b => a < b) (ntc.getD n [])) ∧
      (∀ n c, n < maxNodes →
        (c ∈ ntc.getD n [] ↔ c < ctn.length ∧ ctn.getD c 0 = n)) ∧
      (∀ c, ntc.flatten.count c = if c < ctn.length then 1 else 0) ∧
      (∀ c, c < ctn.length →
        (ntc.getD (ctn.getD c 0) []).getD (idx.getD c 0) 0 = c) := by
  refine ⟨bucketsSpec maxNodes ctn, idxSpec ctn,
    numaBuild_closed maxNodes ctn hmem, bucketsSpec_length _ _,
    fun n hn => bucketsSpec_getD _ _ _ hn, ?_, ?_, ?_, ?_⟩
  · intro n hn
    rw [bucketsSpec_getD _ _ _ hn]
    exact List.Pairwise.sublist (List.filter_sublist _) (List.pairwise_lt_range _)
  · intro n c hn
    rw [bucketsSpec_getD _ _ _ hn, List.mem_filter, List.mem_range]
    constructor
    · intro hand
      exact ⟨hand.1, beq_iff_eq.mp hand.2⟩
    · intro hand
      exact ⟨hand.1, beq_iff_eq.mpr hand.2⟩
  · exact bucketsSpec_join_count maxNodes ctn hmem
  · intro c hc
    have hn0 : ctn.getD c 0 < maxNodes := hmem _ (getD_mem_of_lt _ _ _ hc)
    rw [bucketsSpec_getD _ _ _ hn0, idxSpec_getD _ _ hc]
    exact filter_range_getD_position _ _ _ hc (by simp)

/-- C3, witness: the invariants hold for the two-node assignment [1, 0, 1]. -/
theorem c3_derivation_invariants_witness :
    (∀ x ∈ [1, 0, 1], x < 2) ∧
    (∃ ntc idx, InitNumaNodeToCores 2 [1, 0, 1] = some (ntc, idx) ∧
      ntc.length = 2 ∧
      (∀ n, n < 2 →
        ntc.getD n [] =
          (List.range ([1, 0, 1] : List Nat).length).filter
            (fun c => ([1, 0, 1] : List Nat).getD c 0 == n)) ∧
      (∀ n, n < 2 → List.Pairwise (fun a b => a < b) (ntc.getD n [])) ∧
      (∀ n c, n < 2 →
        (c ∈ ntc.getD n [] ↔
          c < ([1, 0, 1] : List Nat).length ∧ ([1, 0, 1] : List Nat).getD c 0 = n)) ∧
      (∀ c, ntc.flatten.count c =
        if c < ([1, 0, 1] : List Nat).length then 1 else 0) ∧
      (∀ c, c < ([1, 0, 1] : List Nat).length →
        (ntc.getD (([1, 0, 1] : List Nat).getD c 0) []).getD (idx.getD c 0) 0 = c)) :=
  ⟨by decide, c3_derivation_invariants 2 [1, 0, 1] (by decide)⟩

/-- C7: when the NUMA topology directory is absent, `InitNuma` succeeds with
`maxNodes = 1` and every core in `[0, maxCores)` assigned to node 0. -/
theorem c7_absent_numa_dir (env : NumaEnv) (max_num_cores : Nat)
    (h : env.node_dir_exists = false) :
    ∃ s, InitNuma env max_num_cores = Except.ok s ∧
      s.max_num_numa_nodes = 1 ∧
      s.core_to_numa_node = List.replicate max_num_cores 0 ∧
      (∀ c, c < max_num_cores → s.core_to_numa_node.getD c 1 = 0) := by
  have hrep : ∀ x ∈ List.replicate max_num_cores (0 : Nat), x < 1 := by
    intro x hx
    rw [List.eq_of_mem_replicate hx]
    omega
  refine ⟨{ max_num_numa_nodes := 1,
            core_to_numa_node := List.replicate max_num_cores 0,
            numa_node_to_cores := bucketsSpec 1 (List.replicate max_num_cores 0),
            numa_node_core_idx := idxSpec (List.replicate max_num_cores 0) },
    ?_, rfl, rfl, ?_⟩
  · unfold InitNuma
    rw [h, if_pos rfl]
    exact finishNuma_ok 1 _ hrep
  · intro c hc
    exact getD_replicate _ _ _ _ hc

/-- C7, witness: a concrete 3-core machine without the node directory. -/
theorem c7_absent_numa_dir_witness :
    noNumaEnv.node_dir_exists = false ∧
    (∃ s, InitNuma noNumaEnv 3 = Except.ok s ∧
      s.max_num_numa_nodes = 1 ∧
      s.core_to_numa_node = List.replicate 3 0 ∧
      (∀ c, c < 3 → s.core_to_numa_node.getD c 1 = 0)) :=
  ⟨rfl, c7_absent_numa_dir noNumaEnv 3 rfl⟩

/-- C9: the test-only override checks the injected array length against
`max_num_cores` (a mismatch is the fatal DCHECK); on a match it installs the
injected node count and assignment and rebuilds both derived maps through
the same derivation pass as discovery (`InitNumaNodeToCores`), with a result
that matches the injected assignment exactly (`bucketsSpec`/`idxSpec`) and
does not depend on any prior discovery state. -/
theorem c9_fake_numa_override (max_num_cores max_num_numa_nodes : Nat)
    (prev : NumaState) (core_to_numa_node : List Nat)
    (hmem : ∀ x ∈ core_to_numa_node, x < max_num_numa_nodes) :
    (core_to_numa_node.length ≠ max_num_cores →
      InitFakeNumaForTest max_num_cores prev max_num_numa_nodes core_to_numa_node =
        Except.error Fatal.dcheck) ∧
    (core_to_numa_node.length = max_num_cores →
      InitFakeNumaForTest max_num_cores prev max_num_numa_nodes core_to_numa_node =
        Except.ok { max_num_numa_nodes := max_num_numa_nodes,
                    core_to_numa_node := core_to_numa_node,
                    numa_node_to_cores := bucketsSpec max_num_numa_nodes core_to_numa_node,
                    numa_node_core_idx := idxSpec core_to_numa_node } ∧
      InitNumaNodeToCores max_num_numa_nodes core_to_numa_node =
        some (bucketsSpec max_num_numa_nodes core_to_numa_node,
          idxSpec core_to_numa_node) ∧
      (∀ prev2, InitFakeNumaForTest max_num_cores prev2 max_num_numa_nodes
          core_to_numa_node =
        InitFakeNumaForTest max_num_cores prev max_num_numa_nodes
          core_to_numa_node)) := by
  constructor
  · intro hne
    unfold InitFakeNumaForTest
    rw [if_pos hne]
  · intro heq
    refine ⟨?_, numaBuild_closed _ _ hmem, fun prev2 => rfl⟩
    unfold InitFakeNumaForTest
    rw [if_neg (fun hne => hne heq)]
    exact finishNuma_ok _ _ hmem

/-- C9, witness: the override on a 3-core machine with `maxNumaNodes = 2`
and the injected assignment [1, 0, 1], starting from a stale prior state. -/
theorem c9_fake_numa_override_witness :
    (∀ x ∈ [1, 0, 1], x < 2) ∧
    ((([1, 0, 1] : List Nat).length ≠ 3 →
      InitFakeNumaForTest 3 stalePriorNuma 2 [1, 0, 1] =
        Except.error Fatal.dcheck) ∧
    (([1, 0, 1] : List Nat).length = 3 →
      InitFakeNumaForTest 3 stalePriorNuma 2 [1, 0, 1] =
        Except.ok { max_num_numa_nodes := 2, core_to_numa_node := [1, 0, 1],
                    numa_node_to_cores := bucketsSpec 2 [1, 0, 1],
                    numa_node_core_idx := idxSpec [1, 0, 1] } ∧
      InitNumaNodeToCores 2 [1, 0, 1] =
        some (bucketsSpec 2 [1, 0, 1], idxSpec [1, 0, 1]) ∧
      (∀ prev2, InitFakeNumaForTest 3 prev2 2 [1, 0, 1] =
        InitFakeNumaForTest 3 stalePriorNuma 2 [1, 0, 1]))) :=
  ⟨by decide, c9_fake_numa_override 3 2 stalePriorNuma [1, 0, 1] (by decide)⟩

/-- C10: the derivation pass stays in bounds exactly when every assigned
node id is below the node count; discovery always establishes this (so
`InitNuma` never faults); but the test-only override copies the injected
node ids unvalidated, so an entry at or past the injected `maxNodes` drives
the derivation pass out of range (here maxCores = 2, maxNodes = 1, injected
assignment [0, 1]). -/
theorem c10_oob_precondition :
    (∀ maxNodes ctn, (InitNumaNodeToCores maxNodes ctn).isSome = true ↔
      ∀ x ∈ ctn, x < maxNodes) ∧
    (∀ env max_num_cores, ∃ s, InitNuma env max_num_cores = Except.ok s) ∧
    InitFakeNumaForTest 2 stalePriorNuma 1 [0, 1] =
      Except.error Fatal.indexOOB := by
  refine ⟨?_, ?_, rfl⟩
  · intro maxNodes ctn
    have hiff := numaBuild_isSome_iff ctn 0 (List.replicate maxNodes []) []
    rw [List.length_replicate] at hiff
    exact hiff
  · intro env max_num_cores
    unfold InitNuma
    by_cases hdir : env.node_dir_exists = false
    · rw [hdir, if_pos rfl]
      refine ⟨_, finishNuma_ok 1 _ ?_⟩
      intro x hx
      rw [List.eq_of_mem_replicate hx]
      omega
    · rw [if_neg hdir]
      refine ⟨_, finishNuma_ok _ _ ?_⟩
      intro x hx
      unfold discoveredCtn at hx
      simp only [List.mem_map] at hx
      obtain ⟨core, _, hxeq⟩ := hx
      subst hxeq
      have hpos : 0 < numaDirNodeCount env := by
        unfold numaDirNodeCount
        dsimp only
        split
        · omega
        · omega
      cases hfind : (List.range (numaDirNodeCount env)).find?
          (fun node => env.cpu_node_link core node) with
      | none => exact hpos
      | some node => exact List.mem_range.mp (List.mem_of_find?_eq_some hfind)

/-- C10, witness: the out-of-range injected assignment drives the shared
derivation pass out of bounds. -/
theorem c10_oob_precondition_witness :
    InitFakeNumaForTest 2 stalePriorNuma 1 [0, 1] =
      Except.error Fatal.indexOOB :=
  c10_oob_precondition.2.2

end CpuInfo
